import Mathlib

/-!
Shallow embedding of `src/main.rs` of the Champions_league_CSP repository,
together with proofs about the scheduling engine.

Modelling conventions:
* Rust `HashMap<K, V>` fields are modelled as functions `K → Option V`
  (the scheduling code never iterates over these maps, so no iteration
  order needs to be fixed for them).
* Rust `HashSet<Team>` domains are modelled as `List Team`; the list order
  stands for the set's (implementation-defined) iteration order, and all
  operations on it (`insert` at initialization, `remove`, membership) are
  used with set semantics.
* `u8` values (`group`, the home/away counters) are modelled as `ℕ`.
* A Rust panic (`.unwrap()` on `None`) is modelled by the value `none` of
  an `Option`-returning function; `some s` is a normally-completed state.
-/

/-- The `Team` struct of the source: `name`, `country`, and `group`
(a `u8` in the source, modelled as `ℕ`).  `derive(PartialEq, Eq, Hash)`
gives structural equality on the full triple. -/
structure Team where
  name : String
  country : String
  group : Nat
deriving DecidableEq

/-- `Team::new`. -/
def Team.new (name country : String) (group : Nat) : Team :=
  { name := name, country := country, group := group }

/-- The `Match` struct of the source: an ordered home/away pair of teams. -/
structure Match where
  home_team : Team
  away_team : Team
deriving DecidableEq

/-- `Match::new`. -/
def Match.new (home_team away_team : Team) : Match :=
  { home_team := home_team, away_team := away_team }

/-- `constraint_different_country`: two teams may be paired only if their
countries differ. -/
def constraint_different_country (team1 team2 : Team) : Bool :=
  decide (team1.country ≠ team2.country)

/-- The `CSPMatches` struct.  The `constraints` field of the source is not a
field here: `CSPMatches::new` always installs the fixed vector
`vec![constraint_different_country]`, modelled by `CSPMatches.constraints`
below, and nothing in the program ever mutates it. -/
structure CSPMatches where
  teams : List Team
  domains : Team → Option (List Team)
  scheduled_matches : List Match
  group_requirements : Team → Option (Nat → Option (Nat × Nat))

/-- The constraint vector installed by `CSPMatches::new`. -/
def CSPMatches.constraints : List (Team → Team → Bool) :=
  [constraint_different_country]

/-- `CSPMatches::satisfies_constraints`: every constraint in the vector must
accept the pair (left-to-right, short-circuiting on the first failure). -/
def CSPMatches.satisfies_constraints (team1 team2 : Team) : Bool :=
  CSPMatches.constraints.all (fun c => c team1 team2)

/-- `CSPMatches::initialize_domains`: every roster team is mapped to the list
of all *other* roster teams (the loop inserts `opponent` when
`team != opponent`); teams outside the roster have no entry. -/
def CSPMatches.initialize_domains (teams : List Team) : Team → Option (List Team) :=
  fun team =>
    if team ∈ teams then
      some (teams.filter (fun opponent => decide (team ≠ opponent)))
    else none

/-- `CSPMatches::initialize_group_requirements`: every roster team is mapped
to a counter map holding `(0, 0)` exactly for the hardcoded groups
`1..=4`; teams outside the roster have no entry. -/
def CSPMatches.initialize_group_requirements (teams : List Team) :
    Team → Option (Nat → Option (Nat × Nat)) :=
  fun team =>
    if team ∈ teams then
      some (fun group => if 1 ≤ group ∧ group ≤ 4 then some (0, 0) else none)
    else none

/-- `CSPMatches::new`: snapshot the roster, initialize domains and group
requirements, start with no scheduled matches. -/
def CSPMatches.new (teams : List Team) : CSPMatches :=
  { teams := teams
    domains := CSPMatches.initialize_domains teams
    scheduled_matches := []
    group_requirements := CSPMatches.initialize_group_requirements teams }

/-- One `if let Some(reqs) = self.group_requirements.get_mut(key)` block of
`update_group_tracking`: when `key` has a counter map, the block does
`reqs.get_mut(&g).unwrap()` (`none` here is the panic) and replaces the entry
by `bump entry`; when `key` has no counter map the block is skipped. -/
def CSPMatches.updateReq (s : CSPMatches) (key : Team) (g : Nat)
    (bump : Nat × Nat → Nat × Nat) : Option CSPMatches :=
  match s.group_requirements key with
  | none => some s
  | some reqs =>
    match reqs g with
    | none => none
    | some entry =>
      let reqs2 : Nat → Option (Nat × Nat) :=
        fun g2 => if g2 = g then some (bump entry) else reqs g2
      some { s with group_requirements := fun t =>
        if t = key then some reqs2 else s.group_requirements t }

/-- `CSPMatches::update_group_tracking(team1, team2, home)`: the first block
bumps `team1`'s entry at `team2.group` (`entry.0 += 1` when `home`, else
`entry.1 += 1`); the second block bumps `team2`'s entry at `team1.group`
(`entry.1 += 1` when `home`, else `entry.0 += 1`). -/
def CSPMatches.update_group_tracking (s : CSPMatches) (team1 team2 : Team)
    (home : Bool) : Option CSPMatches :=
  match s.updateReq team1 team2.group
      (fun e => if home then (e.1 + 1, e.2) else (e.1, e.2 + 1)) with
  | none => none
  | some s1 =>
    s1.updateReq team2 team1.group
      (fun e => if home then (e.1, e.2 + 1) else (e.1 + 1, e.2))

/-- `self.scheduled_matches.push(m)`. -/
def CSPMatches.push_match (s : CSPMatches) (m : Match) : CSPMatches :=
  { s with scheduled_matches := s.scheduled_matches ++ [m] }

/-- `self.domains.get_mut(key).unwrap().remove(&x)`: `none` when `key` has no
domain (the `.unwrap()` panic); otherwise `x` is removed from `key`'s domain
(set semantics: afterwards `x` is not in the domain). -/
def CSPMatches.domain_remove (s : CSPMatches) (key x : Team) : Option CSPMatches :=
  match s.domains key with
  | none => none
  | some d =>
    some { s with domains := fun t =>
      if t = key then some (d.filter (fun y => decide (y ≠ x))) else s.domains t }

/-- The body of the accepted-candidate branch of `schedule_matches`: push the
forward match `(team, opponent)`, track it with `home = true`, push the return
match `(opponent, team)`, track it with `home = false`, then mutually remove
the two teams from each other's domains. -/
def CSPMatches.commit_pair (s : CSPMatches) (team opponent : Team) : Option CSPMatches :=
  match (s.push_match (Match.new team opponent)).update_group_tracking team opponent true with
  | none => none
  | some s2 =>
    match (s2.push_match (Match.new opponent team)).update_group_tracking opponent team false with
    | none => none
    | some s4 =>
      match s4.domain_remove team opponent with
      | none => none
      | some s5 => s5.domain_remove opponent team

/-- The inner `for opponent in domain_list` loop of `schedule_matches`: scan
the candidates in order and `break` after committing with the first candidate
accepted by the constraints; if none is accepted the state is unchanged. -/
def CSPMatches.try_opponents (s : CSPMatches) (team : Team) :
    List Team → Option CSPMatches
  | [] => some s
  | opponent :: rest =>
    if CSPMatches.satisfies_constraints team opponent then
      s.commit_pair team opponent
    else
      s.try_opponents team rest

/-- The outer `for team in &team_list` loop of `schedule_matches`: for each
team, `self.domains.get(team).unwrap()` (`none` = panic) yields the candidate
list, which the inner loop scans. -/
def CSPMatches.schedule_loop (s : CSPMatches) : List Team → Option CSPMatches
  | [] => some s
  | team :: rest =>
    match s.domains team with
    | none => none
    | some domain_list =>
      match s.try_opponents team domain_list with
      | none => none
      | some s2 => s2.schedule_loop rest

/-- `CSPMatches::schedule_matches`: run the pass over the snapshot of the
roster (`team_list` is a clone of `self.teams`, which the pass never
mutates). -/
def CSPMatches.schedule_matches (s : CSPMatches) : Option CSPMatches :=
  s.schedule_loop s.teams

/-- Observation function: the `(home_count, away_count)` entry of team `c`
against group `g`, when present. -/
def getCounter (s : CSPMatches) (c : Team) (g : Nat) : Option (Nat × Nat) :=
  match s.group_requirements c with
  | none => none
  | some reqs => reqs g

/-- Sample teams used to evaluate the engine at concrete inputs. -/
def tA : Team := Team.new "A" "X" 1

/-- Second sample team, different country, same group. -/
def tB : Team := Team.new "B" "Y" 1

/-- Sample team whose group lies outside the hardcoded range `1..=4`. -/
def tBad : Team := Team.new "C" "Z" 5

/-- A fixture `m` involves team `c` against an opponent whose group is `g`:
either `c` is the home side and the away side's group is `g`, or `c` is the
away side and the home side's group is `g`. -/
def involves (m : Match) (c : Team) (g : Nat) : Bool :=
  decide (m.home_team = c ∧ m.away_team.group = g) ||
  decide (m.away_team = c ∧ m.home_team.group = g)

/-- The number of fixtures in `ms` that involve `c` against an opponent of
group `g`. -/
def countInvolving (ms : List Match) (c : Team) (g : Nat) : Nat :=
  ms.countP (fun m => involves m c g)

/-- The balance-consistency invariant: every present `(home, away)` counter
of a team `c` against a group `g` sums to the number of committed fixtures
involving `c` against an opponent of group `g`. -/
def balanceInv (s : CSPMatches) : Prop :=
  ∀ c g hc ac, getCounter s c g = some (hc, ac) →
    hc + ac = countInvolving s.scheduled_matches c g

/-- Well-formedness of a scheduling state relative to a roster `R`: all
roster groups lie in the hardcoded range `1..=4`, every roster team has a
domain whose members are roster teams, and every roster team has a counter
for every group in range. -/
def rosterWf (R : List Team) (s : CSPMatches) : Prop :=
  (∀ t ∈ R, 1 ≤ t.group ∧ t.group ≤ 4) ∧
  (∀ c ∈ R, ∃ d, s.domains c = some d ∧ ∀ o ∈ d, o ∈ R) ∧
  (∀ c ∈ R, ∀ g, 1 ≤ g → g ≤ 4 → (getCounter s c g).isSome = true)

/-- Domains only shrink from `s` to `s'`: every present domain in `s'` was
already present in `s` and is a subset of what it was. -/
def domainsShrink (s s' : CSPMatches) : Prop :=
  ∀ c d', s'.domains c = some d' → ∃ d, s.domains c = some d ∧ ∀ x ∈ d', x ∈ d

/-- No team appears in its own domain. -/
def selfFreeDomains (s : CSPMatches) : Prop :=
  ∀ c d, s.domains c = some d → c ∉ d

/-- Every fixture in `ms` has distinct countries on its two sides (and hence
distinct sides). -/
def matchesOk (ms : List Match) : Prop :=
  ∀ m ∈ ms, m.home_team.country ≠ m.away_team.country ∧ m.home_team ≠ m.away_team

/-- Every fixture in `ms` has its return fixture in `ms` as well. -/
def returnClosed (ms : List Match) : Prop :=
  ∀ m ∈ ms, Match.new m.away_team m.home_team ∈ ms

/-- The comparison key of `save_matches`'s `sort_by`: home team name. -/
def homeLe (a b : Match) : Prop :=
  a.home_team.name ≤ b.home_team.name

/-- Insert a match into a list sorted by home-team name, before the first
element whose key is not smaller (the stable position). -/
def insertByHome (m : Match) : List Match → List Match
  | [] => [m]
  | x :: xs =>
    if m.home_team.name ≤ x.home_team.name then m :: x :: xs
    else x :: insertByHome m xs

/-- The sort of `save_matches`: `matches.sort_by(|a, b|
a.home_team.name.cmp(&b.home_team.name))`, a stable sort by home-team name,
modelled as a stable insertion sort (which computes the same function as any
stable sort by the same key). -/
def sortByHomeName (ms : List Match) : List Match :=
  ms.foldr insertByHome []

/-- `CSPMatches::save_matches`, up to the CSV encoding: the written rows are
the two-column header followed by one `(home name, away name)` row per
fixture, with the fixtures sorted by home-team name (the source sorts a clone
of `scheduled_matches`, leaving the state unchanged). -/
def save_rows (ms : List Match) : List (List String) :=
  ["Home Team", "Away Team"] ::
    (sortByHomeName ms).map (fun m => [m.home_team.name, m.away_team.name])

/-! ### Characterization lemmas for the state-mutating steps -/

/-- Pushing a match changes no counter. -/
theorem getCounter_push (s : CSPMatches) (m : Match) (c : Team) (g : Nat) :
    getCounter (s.push_match m) c g = getCounter s c g := rfl

/-- Pushing a match appends it to the fixture list. -/
theorem push_match_matches (s : CSPMatches) (m : Match) :
    (s.push_match m).scheduled_matches = s.scheduled_matches ++ [m] := rfl

/-- `getCounter` only looks at one team's entry of `group_requirements`. -/
theorem getCounter_congr (s s' : CSPMatches) (c : Team)
    (h : s'.group_requirements c = s.group_requirements c) (g : Nat) :
    getCounter s' c g = getCounter s c g := by
  unfold getCounter
  rw [h]

/-- What one `if let` block of `update_group_tracking` does on success. -/
theorem updateReq_spec (s : CSPMatches) (key : Team) (g : Nat)
    (bump : Nat × Nat → Nat × Nat) (s' : CSPMatches)
    (h : s.updateReq key g bump = some s') :
    s'.teams = s.teams ∧ s'.domains = s.domains ∧
    s'.scheduled_matches = s.scheduled_matches ∧
    (∀ c, c ≠ key → s'.group_requirements c = s.group_requirements c) ∧
    (∀ g2, g2 ≠ g → getCounter s' key g2 = getCounter s key g2) ∧
    getCounter s' key g = (getCounter s key g).map bump := by
  unfold CSPMatches.updateReq at h
  cases hk : s.group_requirements key with
  | none =>
    rw [hk] at h
    simp only [Option.some.injEq] at h
    subst h
    exact ⟨rfl, rfl, rfl, fun c _ => rfl, fun g2 _ => rfl, by simp [getCounter, hk]⟩
  | some reqs =>
    rw [hk] at h
    dsimp only at h
    cases hg : reqs g with
    | none => rw [hg] at h; cases h
    | some entry =>
      rw [hg] at h
      simp only [Option.some.injEq] at h
      subst h
      refine ⟨rfl, rfl, rfl, ?_, ?_, ?_⟩
      · intro c hc
        simp [hc]
      · intro g2 hg2
        simp [getCounter, hk, hg2]
      · simp [getCounter, hk, hg]

/-- Destructuring `update_group_tracking` into its two blocks. -/
theorem update_group_tracking_eq (s : CSPMatches) (t1 t2 : Team) (home : Bool)
    (s' : CSPMatches) (h : s.update_group_tracking t1 t2 home = some s') :
    ∃ sa, s.updateReq t1 t2.group
        (fun e => if home then (e.1 + 1, e.2) else (e.1, e.2 + 1)) = some sa ∧
      sa.updateReq t2 t1.group
        (fun e => if home then (e.1, e.2 + 1) else (e.1 + 1, e.2)) = some s' := by
  unfold CSPMatches.update_group_tracking at h
  cases hx : s.updateReq t1 t2.group
      (fun e => if home then (e.1 + 1, e.2) else (e.1, e.2 + 1)) with
  | none => rw [hx] at h; cases h
  | some sa => rw [hx] at h; exact ⟨sa, rfl, h⟩

/-- What a successful `update_group_tracking(t1, t2, home)` call does, for
distinct teams: `t1`'s entry at `t2.group` and `t2`'s entry at `t1.group` are
bumped (which component depends on `home`), everything else is unchanged. -/
theorem update_group_tracking_spec (s : CSPMatches) (t1 t2 : Team) (home : Bool)
    (hne : t1 ≠ t2) (s' : CSPMatches)
    (h : s.update_group_tracking t1 t2 home = some s') :
    s'.teams = s.teams ∧ s'.domains = s.domains ∧
    s'.scheduled_matches = s.scheduled_matches ∧
    (∀ c, c ≠ t1 → c ≠ t2 → s'.group_requirements c = s.group_requirements c) ∧
    (∀ c g, ¬(c = t1 ∧ g = t2.group) → ¬(c = t2 ∧ g = t1.group) →
      getCounter s' c g = getCounter s c g) ∧
    getCounter s' t1 t2.group = (getCounter s t1 t2.group).map
      (fun e => if home then (e.1 + 1, e.2) else (e.1, e.2 + 1)) ∧
    getCounter s' t2 t1.group = (getCounter s t2 t1.group).map
      (fun e => if home then (e.1, e.2 + 1) else (e.1 + 1, e.2)) := by
  obtain ⟨sa, h1, h2⟩ := update_group_tracking_eq s t1 t2 home s' h
  obtain ⟨e1t, e1d, e1m, e1go, e1co, e1ca⟩ := updateReq_spec _ _ _ _ _ h1
  obtain ⟨e2t, e2d, e2m, e2go, e2co, e2ca⟩ := updateReq_spec _ _ _ _ _ h2
  refine ⟨e2t.trans e1t, e2d.trans e1d, e2m.trans e1m, ?_, ?_, ?_, ?_⟩
  · intro c hc1 hc2
    exact (e2go c hc2).trans (e1go c hc1)
  · intro c g hp1 hp2
    by_cases hct1 : c = t1
    · subst hct1
      have hg2 : g ≠ t2.group := fun hgg => hp1 ⟨rfl, hgg⟩
      have hs2 : getCounter s' c g = getCounter sa c g :=
        getCounter_congr sa s' c (e2go c hne) g
      exact hs2.trans (e1co g hg2)
    · by_cases hct2 : c = t2
      · subst hct2
        have hg1 : g ≠ t1.group := fun hgg => hp2 ⟨rfl, hgg⟩
        have hs1 : getCounter sa c g = getCounter s c g :=
          getCounter_congr s sa c (e1go c hct1) g
        exact (e2co g hg1).trans hs1
      · have hs2 : getCounter s' c g = getCounter sa c g :=
          getCounter_congr sa s' c (e2go c hct2) g
        have hs1 : getCounter sa c g = getCounter s c g :=
          getCounter_congr s sa c (e1go c hct1) g
        exact hs2.trans hs1
  · have hs2 : getCounter s' t1 t2.group = getCounter sa t1 t2.group :=
      getCounter_congr sa s' t1 (e2go t1 hne) t2.group
    exact hs2.trans e1ca
  · have hs1 : getCounter sa t2 t1.group = getCounter s t2 t1.group :=
      getCounter_congr s sa t2 (e1go t2 (fun hcc => hne hcc.symm)) t1.group
    rw [e2ca, hs1]

/-- What a successful mutual-removal step does. -/
theorem domain_remove_spec (s : CSPMatches) (key x : Team) (s' : CSPMatches)
    (h : s.domain_remove key x = some s') :
    s'.teams = s.teams ∧ s'.scheduled_matches = s.scheduled_matches ∧
    s'.group_requirements = s.group_requirements ∧
    (∀ c, c ≠ key → s'.domains c = s.domains c) ∧
    ∃ d, s.domains key = some d ∧
      s'.domains key = some (d.filter (fun y => decide (y ≠ x))) := by
  unfold CSPMatches.domain_remove at h
  cases hk : s.domains key with
  | none => rw [hk] at h; cases h
  | some d =>
    rw [hk] at h
    simp only [Option.some.injEq] at h
    subst h
    refine ⟨rfl, rfl, rfl, ?_, d, rfl, ?_⟩
    · intro c hc
      simp [hc]
    · simp

/-- Destructuring the accepted-candidate branch into its four fallible
steps. -/
theorem commit_pair_eq (s : CSPMatches) (t o : Team) (s' : CSPMatches)
    (h : s.commit_pair t o = some s') :
    ∃ s2 s4 s5,
      (s.push_match (Match.new t o)).update_group_tracking t o true = some s2 ∧
      (s2.push_match (Match.new o t)).update_group_tracking o t false = some s4 ∧
      s4.domain_remove t o = some s5 ∧
      s5.domain_remove o t = some s' := by
  unfold CSPMatches.commit_pair at h
  cases h1 : (s.push_match (Match.new t o)).update_group_tracking t o true with
  | none => rw [h1] at h; cases h
  | some s2 =>
    rw [h1] at h
    dsimp only at h
    cases h2 : (s2.push_match (Match.new o t)).update_group_tracking o t false with
    | none => rw [h2] at h; cases h
    | some s4 =>
      rw [h2] at h
      dsimp only at h
      cases h3 : s4.domain_remove t o with
      | none => rw [h3] at h; cases h
      | some s5 =>
        rw [h3] at h
        dsimp only at h
        exact ⟨s2, s4, s5, rfl, h2, h3, h⟩

/-- What a successful commit of the pairing `(t, o)` does to the state: the
two legs are appended, `t`'s counter at `o.group` gains two home increments,
`o`'s counter at `t.group` gains two away increments, every other counter is
unchanged, `o` is removed from `t`'s domain and `t` from `o`'s domain, and
every other domain, the roster, and counter presence are unchanged. -/
theorem commit_pair_spec (s : CSPMatches) (t o : Team) (hne : t ≠ o)
    (s' : CSPMatches) (h : s.commit_pair t o = some s') :
    s'.teams = s.teams ∧
    s'.scheduled_matches = s.scheduled_matches ++ [Match.new t o, Match.new o t] ∧
    (∀ c, c ≠ t → c ≠ o → s'.domains c = s.domains c) ∧
    (∃ dt, s.domains t = some dt ∧
      s'.domains t = some (dt.filter (fun y => decide (y ≠ o)))) ∧
    (∃ dd, s.domains o = some dd ∧
      s'.domains o = some (dd.filter (fun y => decide (y ≠ t)))) ∧
    (∀ c g, ¬(c = t ∧ g = o.group) → ¬(c = o ∧ g = t.group) →
      getCounter s' c g = getCounter s c g) ∧
    getCounter s' t o.group = (getCounter s t o.group).map (fun e => (e.1 + 2, e.2)) ∧
    getCounter s' o t.group = (getCounter s o t.group).map (fun e => (e.1, e.2 + 2)) ∧
    (∀ c g, (getCounter s' c g).isSome = (getCounter s c g).isSome) := by
  obtain ⟨s2, s4, s5, h1, h2, h3, h4⟩ := commit_pair_eq s t o s' h
  obtain ⟨a1t, a1d, a1m, a1go, a1co, a1c1, a1c2⟩ :=
    update_group_tracking_spec _ t o true hne s2 h1
  obtain ⟨a2t, a2d, a2m, a2go, a2co, a2c1, a2c2⟩ :=
    update_group_tracking_spec _ o t false (fun hh => hne hh.symm) s4 h2
  obtain ⟨r1t, r1m, r1g, r1do, r1dk⟩ := domain_remove_spec s4 t o s5 h3
  obtain ⟨r2t, r2m, r2g, r2do, r2dk⟩ := domain_remove_spec s5 o t s' h4
  have hd4 : s4.domains = s.domains := a2d.trans a1d
  have hcnt5 : ∀ c g, getCounter s' c g = getCounter s4 c g := by
    intro c g
    exact (getCounter_congr s5 s' c (congrFun r2g c) g).trans
      (getCounter_congr s4 s5 c (congrFun r1g c) g)
  have hcnt_other : ∀ c g, ¬(c = t ∧ g = o.group) → ¬(c = o ∧ g = t.group) →
      getCounter s' c g = getCounter s c g := by
    intro c g hp1 hp2
    exact (hcnt5 c g).trans ((a2co c g hp2 hp1).trans (a1co c g hp1 hp2))
  have hcnt_t : getCounter s' t o.group =
      (getCounter s t o.group).map (fun e => (e.1 + 2, e.2)) := by
    rw [hcnt5, a2c2, getCounter_push, a1c1, getCounter_push]
    cases getCounter s t o.group with
    | none => simp
    | some e => simp
  have hcnt_o : getCounter s' o t.group =
      (getCounter s o t.group).map (fun e => (e.1, e.2 + 2)) := by
    rw [hcnt5, a2c1, getCounter_push, a1c2, getCounter_push]
    cases getCounter s o t.group with
    | none => simp
    | some e => simp
  refine ⟨r2t.trans (r1t.trans (a2t.trans a1t)), ?_, ?_, ?_, ?_, hcnt_other,
    hcnt_t, hcnt_o, ?_⟩
  · calc s'.scheduled_matches = s4.scheduled_matches := r2m.trans r1m
      _ = s2.scheduled_matches ++ [Match.new o t] := a2m
      _ = (s.scheduled_matches ++ [Match.new t o]) ++ [Match.new o t] := by
        rw [a1m, push_match_matches]
      _ = s.scheduled_matches ++ [Match.new t o, Match.new o t] := by simp
  · intro c hct hco
    exact (r2do c hco).trans ((r1do c hct).trans (congrFun hd4 c))
  · obtain ⟨d, hd, hd'⟩ := r1dk
    refine ⟨d, ?_, ?_⟩
    · rw [show s.domains t = s4.domains t from (congrFun hd4 t).symm]
      exact hd
    · rw [← r2do t hne] at hd'
      exact hd'
  · obtain ⟨d, hd, hd'⟩ := r2dk
    refine ⟨d, ?_, hd'⟩
    rw [show s.domains o = s4.domains o from (congrFun hd4 o).symm,
      ← r1do o (fun hh => hne hh.symm)]
    exact hd
  · intro c g
    by_cases hp1 : c = t ∧ g = o.group
    · obtain ⟨hc, hg⟩ := hp1
      subst hc
      subst hg
      rw [hcnt_t]
      cases getCounter s c o.group with
      | none => simp
      | some e => simp
    · by_cases hp2 : c = o ∧ g = t.group
      · obtain ⟨hc, hg⟩ := hp2
        subst hc
        subst hg
        rw [hcnt_o]
        cases getCounter s c t.group with
        | none => simp
        | some e => simp
      · rw [hcnt_other c g hp1 hp2]

/-- Any property preserved by every accepted commit is preserved by the inner
candidate scan and by the whole pass. -/
theorem schedule_preserves (P : CSPMatches → Prop)
    (hcommit : ∀ s t o s', CSPMatches.satisfies_constraints t o = true →
      s.commit_pair t o = some s' → P s → P s') :
    (∀ t dl s s', s.try_opponents t dl = some s' → P s → P s') ∧
    (∀ ts s s', s.schedule_loop ts = some s' → P s → P s') := by
  have htry : ∀ t dl s s', s.try_opponents t dl = some s' → P s → P s' := by
    intro t dl
    induction dl with
    | nil =>
      intro s s' h hP
      unfold CSPMatches.try_opponents at h
      simp only [Option.some.injEq] at h
      subst h
      exact hP
    | cons o rest ih =>
      intro s s' h hP
      unfold CSPMatches.try_opponents at h
      split at h
      · exact hcommit s t o s' (by assumption) h hP
      · exact ih s s' h hP
  refine ⟨htry, ?_⟩
  intro ts
  induction ts with
  | nil =>
    intro s s' h hP
    unfold CSPMatches.schedule_loop at h
    simp only [Option.some.injEq] at h
    subst h
    exact hP
  | cons team rest ih =>
    intro s s' h hP
    unfold CSPMatches.schedule_loop at h
    cases hd : s.domains team with
    | none => rw [hd] at h; cases h
    | some dl =>
      rw [hd] at h
      dsimp only at h
      cases ht : s.try_opponents team dl with
      | none => rw [ht] at h; cases h
      | some s2 =>
        rw [ht] at h
        dsimp only at h
        exact ih s2 s' h (htry team dl s s2 ht hP)

/-- Any reflexive, transitive relation established by every commit relates
the pre- and post-states of the candidate scan and of the whole pass. -/
theorem schedule_rel (R : CSPMatches → CSPMatches → Prop)
    (hrefl : ∀ s, R s s)
    (htrans : ∀ a b c, R a b → R b c → R a c)
    (hcommit : ∀ s t o s', CSPMatches.satisfies_constraints t o = true →
      s.commit_pair t o = some s' → R s s') :
    (∀ t dl s s', s.try_opponents t dl = some s' → R s s') ∧
    (∀ ts s s', s.schedule_loop ts = some s' → R s s') := by
  have htry : ∀ t dl s s', s.try_opponents t dl = some s' → R s s' := by
    intro t dl
    induction dl with
    | nil =>
      intro s s' h
      unfold CSPMatches.try_opponents at h
      simp only [Option.some.injEq] at h
      subst h
      exact hrefl s
    | cons o rest ih =>
      intro s s' h
      unfold CSPMatches.try_opponents at h
      split at h
      · exact hcommit s t o s' (by assumption) h
      · exact ih s s' h
  refine ⟨htry, ?_⟩
  intro ts
  induction ts with
  | nil =>
    intro s s' h
    unfold CSPMatches.schedule_loop at h
    simp only [Option.some.injEq] at h
    subst h
    exact hrefl s
  | cons team rest ih =>
    intro s s' h
    unfold CSPMatches.schedule_loop at h
    cases hd : s.domains team with
    | none => rw [hd] at h; cases h
    | some dl =>
      rw [hd] at h
      dsimp only at h
      cases ht : s.try_opponents team dl with
      | none => rw [ht] at h; cases h
      | some s2 =>
        rw [ht] at h
        dsimp only at h
        exact htrans s s2 s' (htry team dl s s2 ht) (ih s2 s' h)

/-- The constraint vector accepts a pair exactly when the countries differ. -/
theorem satisfies_iff (t o : Team) :
    CSPMatches.satisfies_constraints t o = true ↔ t.country ≠ o.country := by
  simp [CSPMatches.satisfies_constraints, CSPMatches.constraints,
    constraint_different_country]

/-- Accepted pairs are made of distinct teams. -/
theorem satisfies_ne (t o : Team) (h : CSPMatches.satisfies_constraints t o = true) :
    t ≠ o :=
  fun he => (satisfies_iff t o).mp h (congrArg Team.country he)

/-- Counting involvements distributes over append. -/
theorem countInvolving_append (ms ms2 : List Match) (c : Team) (g : Nat) :
    countInvolving (ms ++ ms2) c g = countInvolving ms c g + countInvolving ms2 c g := by
  unfold countInvolving
  exact List.countP_append _ _ _

/-- The balance invariant holds in a freshly constructed engine. -/
theorem balance_new (roster : List Team) : balanceInv (CSPMatches.new roster) := by
  intro c g hc ac hcg
  have hcg2 : getCounter (CSPMatches.new roster) c g =
      (if c ∈ roster then
        (if 1 ≤ g ∧ g ≤ 4 then some ((0 : Nat), (0 : Nat)) else none) else none) := by
    by_cases hm : c ∈ roster
    · simp [getCounter, CSPMatches.new, CSPMatches.initialize_group_requirements, hm]
    · simp [getCounter, CSPMatches.new, CSPMatches.initialize_group_requirements, hm]
  rw [hcg2] at hcg
  by_cases hm : c ∈ roster
  · rw [if_pos hm] at hcg
    by_cases hg : 1 ≤ g ∧ g ≤ 4
    · rw [if_pos hg] at hcg
      simp only [Option.some.injEq, Prod.mk.injEq] at hcg
      obtain ⟨h1, h2⟩ := hcg
      subst h1
      subst h2
      rfl
    · rw [if_neg hg] at hcg
      cases hcg
  · rw [if_neg hm] at hcg
    cases hcg

/-- A successful accepted commit preserves the balance invariant. -/
theorem commit_preserves_balance (s : CSPMatches) (t o : Team)
    (hsat : CSPMatches.satisfies_constraints t o = true) (s' : CSPMatches)
    (h : s.commit_pair t o = some s') (hb : balanceInv s) : balanceInv s' := by
  have hne : t ≠ o := satisfies_ne t o hsat
  obtain ⟨_, hm, _, _, _, hco, hct, hcoo, _⟩ := commit_pair_spec s t o hne s' h
  intro c g hc ac hcg
  rw [hm, countInvolving_append]
  by_cases hp1 : c = t ∧ g = o.group
  · obtain ⟨h1, h2⟩ := hp1
    subst h1
    subst h2
    rw [hct] at hcg
    cases hold : getCounter s c o.group with
    | none => rw [hold] at hcg; cases hcg
    | some e =>
      rw [hold] at hcg
      simp only [Option.map_some', Option.some.injEq, Prod.mk.injEq] at hcg
      obtain ⟨h1, h2⟩ := hcg
      have hpair : countInvolving [Match.new c o, Match.new o c] c o.group = 2 := by
        simp [countInvolving, involves, Match.new]
      rw [hpair, ← h1, ← h2]
      have := hb c o.group e.1 e.2 hold
      omega
  · by_cases hp2 : c = o ∧ g = t.group
    · obtain ⟨h1, h2⟩ := hp2
      subst h1
      subst h2
      rw [hcoo] at hcg
      cases hold : getCounter s c t.group with
      | none => rw [hold] at hcg; cases hcg
      | some e =>
        rw [hold] at hcg
        simp only [Option.map_some', Option.some.injEq, Prod.mk.injEq] at hcg
        obtain ⟨h1, h2⟩ := hcg
        have hpair : countInvolving [Match.new t c, Match.new c t] c t.group = 2 := by
          simp [countInvolving, involves, Match.new]
        rw [hpair, ← h1, ← h2]
        have := hb c t.group e.1 e.2 hold
        omega
    · have hq1 : ¬(t = c ∧ o.group = g) := fun hq => hp1 ⟨hq.1.symm, hq.2.symm⟩
      have hq2 : ¬(o = c ∧ t.group = g) := fun hq => hp2 ⟨hq.1.symm, hq.2.symm⟩
      have hpair : countInvolving [Match.new t o, Match.new o t] c g = 0 := by
        simp [countInvolving, involves, Match.new, hq1, hq2]
      rw [hpair]
      rw [hco c g hp1 hp2] at hcg
      have := hb c g hc ac hcg
      omega

/-- One update block never changes whether a counter is present. -/
theorem updateReq_counters_isSome (s : CSPMatches) (key : Team) (g : Nat)
    (bump : Nat × Nat → Nat × Nat) (s' : CSPMatches)
    (h : s.updateReq key g bump = some s') (c : Team) (g2 : Nat) :
    (getCounter s' c g2).isSome = (getCounter s c g2).isSome := by
  obtain ⟨_, _, _, hgo, hco, hca⟩ := updateReq_spec s key g bump s' h
  by_cases hc : c = key
  · subst hc
    by_cases hg2 : g2 = g
    · subst hg2
      rw [hca]
      cases getCounter s c g2 with
      | none => simp
      | some e => simp
    · rw [hco g2 hg2]
  · rw [getCounter_congr s s' c (hgo c hc) g2]

/-- A tracking call never changes whether a counter is present. -/
theorem update_counters_isSome (s : CSPMatches) (t1 t2 : Team) (home : Bool)
    (s' : CSPMatches) (h : s.update_group_tracking t1 t2 home = some s')
    (c : Team) (g : Nat) :
    (getCounter s' c g).isSome = (getCounter s c g).isSome := by
  obtain ⟨sa, ha, hb⟩ := update_group_tracking_eq s t1 t2 home s' h
  rw [updateReq_counters_isSome sa t2 t1.group _ s' hb c g,
    updateReq_counters_isSome s t1 t2.group _ sa ha c g]

/-- A tracking call never changes the domains. -/
theorem update_domains_eq (s : CSPMatches) (t1 t2 : Team) (home : Bool)
    (s' : CSPMatches) (h : s.update_group_tracking t1 t2 home = some s') :
    s'.domains = s.domains := by
  obtain ⟨sa, ha, hb⟩ := update_group_tracking_eq s t1 t2 home s' h
  exact ((updateReq_spec sa t2 t1.group _ s' hb).2.1).trans
    ((updateReq_spec s t1 t2.group _ sa ha).2.1)

/-- One update block succeeds whenever the addressed counter is present. -/
theorem updateReq_isSome (s : CSPMatches) (key : Team) (g : Nat)
    (bump : Nat × Nat → Nat × Nat) (hk : (getCounter s key g).isSome = true) :
    ∃ s2, s.updateReq key g bump = some s2 := by
  unfold CSPMatches.updateReq
  cases hgr : s.group_requirements key with
  | none => exact ⟨s, rfl⟩
  | some reqs =>
    dsimp only
    cases hg : reqs g with
    | none =>
      unfold getCounter at hk
      rw [hgr] at hk
      dsimp only at hk
      rw [hg] at hk
      simp at hk
    | some entry => exact ⟨_, rfl⟩

/-- A tracking call succeeds whenever both addressed counters are present. -/
theorem update_group_tracking_isSome (s : CSPMatches) (t1 t2 : Team) (home : Bool)
    (h1 : (getCounter s t1 t2.group).isSome = true)
    (h2 : (getCounter s t2 t1.group).isSome = true) :
    ∃ s', s.update_group_tracking t1 t2 home = some s' := by
  unfold CSPMatches.update_group_tracking
  obtain ⟨sa, hsa⟩ := updateReq_isSome s t1 t2.group
    (fun e => if home then (e.1 + 1, e.2) else (e.1, e.2 + 1)) h1
  rw [hsa]
  dsimp only
  exact updateReq_isSome sa t2 t1.group _
    (by rw [updateReq_counters_isSome s t1 t2.group _ sa hsa t2 t1.group]; exact h2)

/-- A removal succeeds whenever the addressed domain is present. -/
theorem domain_remove_isSome (s : CSPMatches) (key x : Team)
    (hk : (s.domains key).isSome = true) :
    ∃ s', s.domain_remove key x = some s' := by
  unfold CSPMatches.domain_remove
  cases hd : s.domains key with
  | none => rw [hd] at hk; simp at hk
  | some d => exact ⟨_, rfl⟩

/-- A successful accepted commit preserves roster well-formedness. -/
theorem commit_preserves_wf (R : List Team) (s : CSPMatches) (t o : Team)
    (hne : t ≠ o) (s' : CSPMatches) (h : s.commit_pair t o = some s')
    (hw : rosterWf R s) : rosterWf R s' := by
  obtain ⟨_, _, hdother, hdt, hdo2, _, _, _, hsome⟩ := commit_pair_spec s t o hne s' h
  obtain ⟨hw1, hw2, hw3⟩ := hw
  refine ⟨hw1, ?_, ?_⟩
  · intro c hc
    by_cases hct : c = t
    · subst hct
      obtain ⟨dt, hdt1, hdt2⟩ := hdt
      obtain ⟨d, hd, hdR⟩ := hw2 c hc
      rw [hd] at hdt1
      cases hdt1
      exact ⟨_, hdt2, fun x hx => hdR x (List.mem_filter.mp hx).1⟩
    · by_cases hco : c = o
      · subst hco
        obtain ⟨dd, hdd1, hdd2⟩ := hdo2
        obtain ⟨d, hd, hdR⟩ := hw2 c hc
        rw [hd] at hdd1
        cases hdd1
        exact ⟨_, hdd2, fun x hx => hdR x (List.mem_filter.mp hx).1⟩
      · obtain ⟨d, hd, hdR⟩ := hw2 c hc
        exact ⟨d, (hdother c hct hco).trans hd, hdR⟩
  · intro c hc g hg1 hg2
    rw [hsome c g]
    exact hw3 c hc g hg1 hg2

/-- A commit between distinct roster members succeeds on a well-formed
state. -/
theorem commit_pair_isSome (R : List Team) (s : CSPMatches) (t o : Team)
    (hne : t ≠ o) (htR : t ∈ R) (hoR : o ∈ R) (hw : rosterWf R s) :
    ∃ s', s.commit_pair t o = some s' := by
  obtain ⟨hw1, hw2, hw3⟩ := hw
  have hog : 1 ≤ o.group ∧ o.group ≤ 4 := hw1 o hoR
  have htg : 1 ≤ t.group ∧ t.group ≤ 4 := hw1 t htR
  have hc1 : (getCounter (s.push_match (Match.new t o)) t o.group).isSome = true := by
    rw [getCounter_push]
    exact hw3 t htR o.group hog.1 hog.2
  have hc2 : (getCounter (s.push_match (Match.new t o)) o t.group).isSome = true := by
    rw [getCounter_push]
    exact hw3 o hoR t.group htg.1 htg.2
  obtain ⟨s2, h1⟩ := update_group_tracking_isSome _ t o true hc1 hc2
  have hpres2 : ∀ c g, (getCounter s2 c g).isSome = (getCounter s c g).isSome := by
    intro c g
    rw [update_counters_isSome _ t o true s2 h1 c g, getCounter_push]
  have hcA : (getCounter (s2.push_match (Match.new o t)) o t.group).isSome = true := by
    rw [getCounter_push, hpres2 o t.group]
    exact hw3 o hoR t.group htg.1 htg.2
  have hcB : (getCounter (s2.push_match (Match.new o t)) t o.group).isSome = true := by
    rw [getCounter_push, hpres2 t o.group]
    exact hw3 t htR o.group hog.1 hog.2
  obtain ⟨s4, h2⟩ := update_group_tracking_isSome _ o t false hcA hcB
  have hd4a : s4.domains = (s2.push_match (Match.new o t)).domains :=
    update_domains_eq _ o t false s4 h2
  have hd4b : s2.domains = (s.push_match (Match.new t o)).domains :=
    update_domains_eq _ t o true s2 h1
  have hd4 : s4.domains = s.domains := hd4a.trans hd4b
  have hdt : (s4.domains t).isSome = true := by
    rw [congrFun hd4 t]
    obtain ⟨d, hd, _⟩ := hw2 t htR
    rw [hd]
    rfl
  obtain ⟨s5, h3⟩ := domain_remove_isSome s4 t o hdt
  have hd5 : ∀ c, c ≠ t → s5.domains c = s4.domains c :=
    (domain_remove_spec s4 t o s5 h3).2.2.2.1
  have hdo : (s5.domains o).isSome = true := by
    rw [hd5 o (fun hh => hne hh.symm), congrFun hd4 o]
    obtain ⟨d, hd, _⟩ := hw2 o hoR
    rw [hd]
    rfl
  obtain ⟨s6, h4⟩ := domain_remove_isSome s5 o t hdo
  refine ⟨s6, ?_⟩
  unfold CSPMatches.commit_pair
  rw [h1]
  dsimp only
  rw [h2]
  dsimp only
  rw [h3]
  dsimp only
  exact h4

/-- A fresh engine is well-formed when all roster groups are in `1..=4`. -/
theorem wf_new (roster : List Team)
    (hg : ∀ t ∈ roster, 1 ≤ t.group ∧ t.group ≤ 4) :
    rosterWf roster (CSPMatches.new roster) := by
  refine ⟨hg, ?_, ?_⟩
  · intro c hc
    refine ⟨roster.filter (fun opponent => decide (c ≠ opponent)), ?_, ?_⟩
    · simp [CSPMatches.new, CSPMatches.initialize_domains, hc]
    · intro o ho
      exact (List.mem_filter.mp ho).1
  · intro c hc g hg1 hg2
    simp [getCounter, CSPMatches.new, CSPMatches.initialize_group_requirements,
      hc, hg1, hg2]

/-- The inner candidate scan succeeds on a well-formed state whose candidates
are roster members, and preserves well-formedness. -/
theorem try_opponents_isSome (R : List Team) (team : Team) (htR : team ∈ R) :
    ∀ (dl : List Team) (s : CSPMatches), rosterWf R s → (∀ o ∈ dl, o ∈ R) →
    ∃ s2, s.try_opponents team dl = some s2 ∧ rosterWf R s2 := by
  intro dl
  induction dl with
  | nil =>
    intro s hw _
    exact ⟨s, rfl, hw⟩
  | cons o rest ih =>
    intro s hw ho
    unfold CSPMatches.try_opponents
    by_cases hsat : CSPMatches.satisfies_constraints team o = true
    · rw [if_pos hsat]
      have hne := satisfies_ne team o hsat
      obtain ⟨s2, hc⟩ := commit_pair_isSome R s team o hne htR (ho o (by simp)) hw
      exact ⟨s2, hc, commit_preserves_wf R s team o hne s2 hc hw⟩
    · rw [if_neg hsat]
      exact ih s hw (fun x hx => ho x (by simp [hx]))

/-- The whole pass succeeds on a well-formed state when the iterated teams
are roster members, and preserves well-formedness. -/
theorem schedule_loop_isSome (R : List Team) :
    ∀ (ts : List Team) (s : CSPMatches), rosterWf R s → (∀ t ∈ ts, t ∈ R) →
    ∃ s', s.schedule_loop ts = some s' ∧ rosterWf R s' := by
  intro ts
  induction ts with
  | nil =>
    intro s hw _
    exact ⟨s, rfl, hw⟩
  | cons team rest ih =>
    intro s hw hts
    have htR : team ∈ R := hts team (by simp)
    obtain ⟨dl, hdl, hdlR⟩ := hw.2.1 team htR
    obtain ⟨s2, ht2, hw2⟩ := try_opponents_isSome R team htR dl s hw hdlR
    obtain ⟨s', hs', hw'⟩ := ih s2 hw2 (fun x hx => hts x (by simp [hx]))
    refine ⟨s', ?_, hw'⟩
    unfold CSPMatches.schedule_loop
    rw [hdl]
    dsimp only
    rw [ht2]
    dsimp only
    exact hs'

/-- In a fresh engine every roster team has a zero counter for every group in
range. -/
theorem getCounter_new (roster : List Team) (c : Team) (g : Nat)
    (hc : c ∈ roster) (hg1 : 1 ≤ g) (hg2 : g ≤ 4) :
    getCounter (CSPMatches.new roster) c g = some (0, 0) := by
  simp [getCounter, CSPMatches.new, CSPMatches.initialize_group_requirements,
    hc, hg1, hg2]

/-- One update block panics when the addressed group entry is absent. -/
theorem updateReq_none (s : CSPMatches) (key : Team) (g : Nat)
    (bump : Nat × Nat → Nat × Nat) (reqs : Nat → Option (Nat × Nat))
    (h1 : s.group_requirements key = some reqs) (h2 : reqs g = none) :
    s.updateReq key g bump = none := by
  unfold CSPMatches.updateReq
  rw [h1]
  dsimp only
  rw [h2]

/-- An accepted commit preserves the different-country/different-team
property of the fixture list. -/
theorem commit_preserves_matchesOk (s : CSPMatches) (t o : Team)
    (hsat : CSPMatches.satisfies_constraints t o = true) (s' : CSPMatches)
    (h : s.commit_pair t o = some s')
    (hok : matchesOk s.scheduled_matches) : matchesOk s'.scheduled_matches := by
  have hne := satisfies_ne t o hsat
  have hcountry := (satisfies_iff t o).mp hsat
  obtain ⟨_, hm, _⟩ := commit_pair_spec s t o hne s' h
  rw [hm]
  intro m hmm
  rcases List.mem_append.mp hmm with hin | hin
  · exact hok m hin
  · simp only [List.mem_cons, List.mem_singleton] at hin
    rcases hin with rfl | hin
    · exact ⟨hcountry, hne⟩
    · rcases hin with rfl | hin
      · exact ⟨fun hcc => hcountry hcc.symm, fun hee => hne hee.symm⟩
      · cases hin

/-- An accepted commit preserves return-closedness and even length of the
fixture list. -/
theorem commit_preserves_returnClosed (s : CSPMatches) (t o : Team)
    (hsat : CSPMatches.satisfies_constraints t o = true) (s' : CSPMatches)
    (h : s.commit_pair t o = some s')
    (hok : returnClosed s.scheduled_matches ∧ s.scheduled_matches.length % 2 = 0) :
    returnClosed s'.scheduled_matches ∧ s'.scheduled_matches.length % 2 = 0 := by
  have hne := satisfies_ne t o hsat
  obtain ⟨_, hm, _⟩ := commit_pair_spec s t o hne s' h
  obtain ⟨hrc, hlen⟩ := hok
  rw [hm]
  constructor
  · intro m hmm
    rcases List.mem_append.mp hmm with hin | hin
    · exact List.mem_append_left _ (hrc m hin)
    · simp only [List.mem_cons, List.mem_singleton] at hin
      rcases hin with rfl | hin
      · refine List.mem_append_right _ ?_
        simp [Match.new]
      · rcases hin with rfl | hin
        · refine List.mem_append_right _ ?_
          simp [Match.new]
        · cases hin
  · simp only [List.length_append, List.length_cons, List.length_nil]
    omega

/-- An accepted commit preserves the absence of a team from its own domain. -/
theorem commit_preserves_selfFree (s : CSPMatches) (t o : Team)
    (hsat : CSPMatches.satisfies_constraints t o = true) (s' : CSPMatches)
    (h : s.commit_pair t o = some s')
    (hsf : selfFreeDomains s) : selfFreeDomains s' := by
  have hne := satisfies_ne t o hsat
  obtain ⟨_, _, hdother, hdt, hdo2, _⟩ := commit_pair_spec s t o hne s' h
  intro c d hd hcd
  by_cases hct : c = t
  · subst hct
    obtain ⟨dt, hdt1, hdt2⟩ := hdt
    rw [hd] at hdt2
    cases hdt2
    exact hsf c dt hdt1 (List.mem_filter.mp hcd).1
  · by_cases hco : c = o
    · subst hco
      obtain ⟨dd, hdd1, hdd2⟩ := hdo2
      rw [hd] at hdd2
      cases hdd2
      exact hsf c dd hdd1 (List.mem_filter.mp hcd).1
    · exact hsf c d ((hdother c hct hco).symm.trans hd) hcd

/-- An accepted commit only shrinks domains. -/
theorem commit_shrinks (s : CSPMatches) (t o : Team)
    (hsat : CSPMatches.satisfies_constraints t o = true) (s' : CSPMatches)
    (h : s.commit_pair t o = some s') : domainsShrink s s' := by
  have hne := satisfies_ne t o hsat
  obtain ⟨_, _, hdother, hdt, hdo2, _⟩ := commit_pair_spec s t o hne s' h
  intro c d' hd'
  by_cases hct : c = t
  · subst hct
    obtain ⟨dt, hdt1, hdt2⟩ := hdt
    rw [hd'] at hdt2
    cases hdt2
    exact ⟨dt, hdt1, fun x hx => (List.mem_filter.mp hx).1⟩
  · by_cases hco : c = o
    · subst hco
      obtain ⟨dd, hdd1, hdd2⟩ := hdo2
      rw [hd'] at hdd2
      cases hdd2
      exact ⟨dd, hdd1, fun x hx => (List.mem_filter.mp hx).1⟩
    · exact ⟨d', (hdother c hct hco).symm.trans hd', fun x hx => hx⟩

/-- `domainsShrink` is reflexive. -/
theorem domainsShrink_refl (s : CSPMatches) : domainsShrink s s :=
  fun _ d' hd' => ⟨d', hd', fun _ hx => hx⟩

/-- `domainsShrink` is transitive. -/
theorem domainsShrink_trans (a b c : CSPMatches)
    (hab : domainsShrink a b) (hbc : domainsShrink b c) : domainsShrink a c := by
  intro x d' hd'
  obtain ⟨d2, hd2, hsub2⟩ := hbc x d' hd'
  obtain ⟨d1, hd1, hsub1⟩ := hab x d2 hd2
  exact ⟨d1, hd1, fun y hy => hsub1 y (hsub2 y hy)⟩

/-- A fresh engine has self-free domains. -/
theorem selfFree_new (roster : List Team) : selfFreeDomains (CSPMatches.new roster) := by
  intro c d hd hcd
  by_cases hc : c ∈ roster
  · simp only [CSPMatches.new, CSPMatches.initialize_domains] at hd
    rw [if_pos hc] at hd
    simp only [Option.some.injEq] at hd
    subst hd
    have := (List.mem_filter.mp hcd).2
    simp at this
  · simp only [CSPMatches.new, CSPMatches.initialize_domains] at hd
    rw [if_neg hc] at hd
    cases hd

/-- Membership in an insertion. -/
theorem insertByHome_mem (m : Match) (l : List Match) (y : Match) :
    y ∈ insertByHome m l ↔ y = m ∨ y ∈ l := by
  induction l with
  | nil => simp [insertByHome]
  | cons x xs ih =>
    unfold insertByHome
    by_cases hle : m.home_team.name ≤ x.home_team.name
    · rw [if_pos hle]
      simp only [List.mem_cons]
    · rw [if_neg hle]
      simp only [List.mem_cons, ih]
      tauto

/-- Insertion preserves sortedness by home-team name. -/
theorem insertByHome_pairwise (m : Match) (l : List Match)
    (h : l.Pairwise homeLe) : (insertByHome m l).Pairwise homeLe := by
  induction l with
  | nil => simp [insertByHome, homeLe]
  | cons x xs ih =>
    unfold insertByHome
    obtain ⟨hxall, hxs⟩ := List.pairwise_cons.mp h
    by_cases hle : m.home_team.name ≤ x.home_team.name
    · rw [if_pos hle]
      refine List.Pairwise.cons ?_ h
      intro y hy
      rcases List.mem_cons.mp hy with rfl | hy2
      · exact hle
      · exact le_trans hle (hxall y hy2)
    · rw [if_neg hle]
      refine List.Pairwise.cons ?_ (ih hxs)
      intro y hy
      rcases (insertByHome_mem m xs y).mp hy with rfl | hy2
      · exact le_of_not_le hle
      · exact hxall y hy2

/-- Unfolding the stable sort one step. -/
theorem sortByHomeName_cons (x : Match) (xs : List Match) :
    sortByHomeName (x :: xs) = insertByHome x (sortByHomeName xs) := rfl

/-- The stable sort produces a list sorted by home-team name. -/
theorem sortByHomeName_pairwise (ms : List Match) :
    (sortByHomeName ms).Pairwise homeLe := by
  induction ms with
  | nil => simp [sortByHomeName]
  | cons x xs ih =>
    rw [sortByHomeName_cons]
    exact insertByHome_pairwise x _ ih

/-- Sorting a list already sorted by home-team name leaves it unchanged. -/
theorem sortByHomeName_of_pairwise (ms : List Match)
    (h : ms.Pairwise homeLe) : sortByHomeName ms = ms := by
  induction ms with
  | nil => rfl
  | cons x xs ih =>
    obtain ⟨hall, hxs⟩ := List.pairwise_cons.mp h
    rw [sortByHomeName_cons, ih hxs]
    cases xs with
    | nil => rfl
    | cons y ys =>
      unfold insertByHome
      rw [if_pos (show x.home_team.name ≤ y.home_team.name from hall y (by simp))]

/-! ### Claim theorems -/

/-- Claim C1, evaluated against the code at the failing input: committing the
two-leg pairing between `tA` and `tB` (distinct countries, both group 1)
leaves `tA` with counter `(home = 2, away = 0)` against `tB`'s group and `tB`
with `(home = 0, away = 2)` against `tA`'s group.  The return-leg call
`update_group_tracking(&opponent, team, false)` swaps both the argument order
and the `home` flag, so it re-records the forward orientation instead of
giving each side one home and one away increment as the claim states. -/
theorem c1_return_leg_records_swapped :
    (CSPMatches.schedule_matches (CSPMatches.new [tA, tB])).map
      (fun s => (s.scheduled_matches, getCounter s tA 1, getCounter s tB 1)) =
    some ([Match.new tA tB, Match.new tB tA], some (2, 0), some (0, 2)) := by
  decide

/-- Claim C2: at every point during and after a scheduling run — in the fresh
engine, across any suffix of the pass, and across any inner candidate scan —
every present `(home, away)` counter of a competitor `c` against a group `g`
sums to the number of committed fixtures involving `c` against an opponent of
group `g`; moreover after a run from a fresh engine the counter of every
roster competitor against every group in the configured range `1..=4` is
present and satisfies that equation. -/
theorem c2_balance_invariant :
    (∀ roster, balanceInv (CSPMatches.new roster)) ∧
    (∀ ts s s', s.schedule_loop ts = some s' → balanceInv s → balanceInv s') ∧
    (∀ t dl s s', s.try_opponents t dl = some s' → balanceInv s → balanceInv s') ∧
    (∀ roster ts s' c g, (CSPMatches.new roster).schedule_loop ts = some s' →
      c ∈ roster → 1 ≤ g → g ≤ 4 →
      ∃ hc ac, getCounter s' c g = some (hc, ac) ∧
        hc + ac = countInvolving s'.scheduled_matches c g) := by
  have hpres := schedule_preserves balanceInv
    (fun s t o s' hsat hcp hb => commit_preserves_balance s t o hsat s' hcp hb)
  refine ⟨balance_new, hpres.2, hpres.1, ?_⟩
  intro roster ts s' c g hrun hc hg1 hg2
  have hrel := schedule_rel
    (fun a b => ∀ c2 g2, (getCounter b c2 g2).isSome = (getCounter a c2 g2).isSome)
    (fun _ _ _ => rfl)
    (fun _ _ _ hab hbc c2 g2 => (hbc c2 g2).trans (hab c2 g2))
    (fun s t o s2 hsat hcp =>
      (commit_pair_spec s t o (satisfies_ne t o hsat) s2 hcp).2.2.2.2.2.2.2.2)
  have hsome := hrel.2 ts _ s' hrun c g
  rw [getCounter_new roster c g hc hg1 hg2] at hsome
  cases hgc : getCounter s' c g with
  | none =>
    rw [hgc] at hsome
    simp at hsome
  | some e =>
    obtain ⟨e1, e2⟩ := e
    have hb : balanceInv s' := hpres.2 ts _ s' hrun (balance_new roster)
    exact ⟨e1, e2, rfl, hb c g e1 e2 hgc⟩

/-- Witness for C2 at the concrete roster `[tA, tB]`. -/
theorem c2_balance_invariant_witness :
    balanceInv (CSPMatches.new [tA, tB]) ∧
    (∃ s', (CSPMatches.new [tA, tB]).schedule_loop [tA, tB] = some s' ∧
      balanceInv s' ∧
      ∃ hc ac, getCounter s' tA 1 = some (hc, ac) ∧
        hc + ac = countInvolving s'.scheduled_matches tA 1) := by
  refine ⟨c2_balance_invariant.1 [tA, tB], ⟨_, rfl, ?_, ?_⟩⟩
  · exact c2_balance_invariant.2.1 [tA, tB] (CSPMatches.new [tA, tB]) _ rfl
      (c2_balance_invariant.1 [tA, tB])
  · exact c2_balance_invariant.2.2.2 [tA, tB] [tA, tB] _ tA 1 rfl (by decide)
      (by decide) (by decide)

/-- Claim C3: every fixture in the scheduled result has sides from different
countries, and hence distinct sides, for every input roster. -/
theorem c3_fixture_constraints (roster : List Team) (s' : CSPMatches)
    (h : (CSPMatches.new roster).schedule_matches = some s') :
    ∀ m ∈ s'.scheduled_matches,
      m.home_team.country ≠ m.away_team.country ∧ m.home_team ≠ m.away_team := by
  have hpres := schedule_preserves (fun s => matchesOk s.scheduled_matches)
    (fun s t o s2 hsat hcp hok => commit_preserves_matchesOk s t o hsat s2 hcp hok)
  have hinit : matchesOk (CSPMatches.new roster).scheduled_matches := by
    intro m hm
    cases hm
  exact hpres.2 roster _ s' h hinit

/-- Witness for C3 at the concrete roster `[tA, tB]`. -/
theorem c3_fixture_constraints_witness :
    ∃ s', (CSPMatches.new [tA, tB]).schedule_matches = some s' ∧
      ∀ m ∈ s'.scheduled_matches,
        m.home_team.country ≠ m.away_team.country ∧ m.home_team ≠ m.away_team :=
  ⟨_, rfl, c3_fixture_constraints [tA, tB] _ rfl⟩

/-- Claim C4: every committed forward fixture has its return fixture in the
same run's result, and the resulting fixture list has even length. -/
theorem c4_two_leg_commit (roster : List Team) (s' : CSPMatches)
    (h : (CSPMatches.new roster).schedule_matches = some s') :
    returnClosed s'.scheduled_matches ∧ s'.scheduled_matches.length % 2 = 0 := by
  have hpres := schedule_preserves
    (fun s => returnClosed s.scheduled_matches ∧ s.scheduled_matches.length % 2 = 0)
    (fun s t o s2 hsat hcp hok => commit_preserves_returnClosed s t o hsat s2 hcp hok)
  refine hpres.2 roster _ s' h ⟨?_, rfl⟩
  intro m hm
  cases hm

/-- Witness for C4 at the concrete roster `[tA, tB]`. -/
theorem c4_two_leg_commit_witness :
    ∃ s', (CSPMatches.new [tA, tB]).schedule_matches = some s' ∧
      returnClosed s'.scheduled_matches ∧ s'.scheduled_matches.length % 2 = 0 :=
  ⟨_, rfl, c4_two_leg_commit [tA, tB] _ rfl⟩

/-- Claim C5: on a well-formed input (non-empty roster, all group numbers in
the configured range `1..=4`) the scheduling pass reaches no panic (`none`)
branch: it completes normally with a (possibly incomplete) fixture list. -/
theorem c5_schedule_cannot_fail (roster : List Team) (hne : roster ≠ [])
    (hg : ∀ t ∈ roster, 1 ≤ t.group ∧ t.group ≤ 4) :
    ∃ s', (CSPMatches.new roster).schedule_matches = some s' := by
  obtain ⟨s', hs', _⟩ := schedule_loop_isSome roster roster (CSPMatches.new roster)
    (wf_new roster hg) (fun t ht => ht)
  exact ⟨s', hs'⟩

/-- Witness for C5 at the concrete roster `[tA, tB]`. -/
theorem c5_schedule_cannot_fail_witness :
    ∃ s', (CSPMatches.new [tA, tB]).schedule_matches = some s' :=
  c5_schedule_cannot_fail [tA, tB] (by decide) (by decide)

/-- Claim C6: a competitor never appears in its own domain (initially, and
preserved across the pass), domains only shrink across the pass, and a commit
removes each of the two paired teams from the other's domain — so with
shrinking neither reappears for the remainder of the run. -/
theorem c6_domain_monotonicity :
    (∀ roster, selfFreeDomains (CSPMatches.new roster)) ∧
    (∀ ts s s', s.schedule_loop ts = some s' →
      selfFreeDomains s → selfFreeDomains s') ∧
    (∀ ts s s', s.schedule_loop ts = some s' → domainsShrink s s') ∧
    (∀ (s : CSPMatches) (t o : Team) (s' : CSPMatches),
      CSPMatches.satisfies_constraints t o = true →
      s.commit_pair t o = some s' →
      (∃ d, s'.domains t = some d ∧ o ∉ d) ∧
      (∃ d, s'.domains o = some d ∧ t ∉ d)) := by
  have hpres := schedule_preserves selfFreeDomains
    (fun s t o s2 hsat hcp hsf => commit_preserves_selfFree s t o hsat s2 hcp hsf)
  have hrel := schedule_rel domainsShrink domainsShrink_refl domainsShrink_trans
    (fun s t o s2 hsat hcp => commit_shrinks s t o hsat s2 hcp)
  refine ⟨selfFree_new, hpres.2, hrel.2, ?_⟩
  intro s t o s' hsat h
  have hne := satisfies_ne t o hsat
  obtain ⟨_, _, _, hdt, hdo2, _⟩ := commit_pair_spec s t o hne s' h
  constructor
  · obtain ⟨dt, _, hdt2⟩ := hdt
    refine ⟨_, hdt2, ?_⟩
    intro hmem
    have := (List.mem_filter.mp hmem).2
    simp at this
  · obtain ⟨dd, _, hdd2⟩ := hdo2
    refine ⟨_, hdd2, ?_⟩
    intro hmem
    have := (List.mem_filter.mp hmem).2
    simp at this

/-- Witness for C6 at the concrete roster `[tA, tB]`. -/
theorem c6_domain_monotonicity_witness :
    selfFreeDomains (CSPMatches.new [tA, tB]) ∧
    (∃ s', (CSPMatches.new [tA, tB]).schedule_loop [tA, tB] = some s' ∧
      selfFreeDomains s' ∧ domainsShrink (CSPMatches.new [tA, tB]) s') ∧
    (∃ s', (CSPMatches.new [tA, tB]).commit_pair tA tB = some s' ∧
      (∃ d, s'.domains tA = some d ∧ tB ∉ d) ∧
      (∃ d, s'.domains tB = some d ∧ tA ∉ d)) := by
  refine ⟨c6_domain_monotonicity.1 [tA, tB], ⟨_, rfl, ?_, ?_⟩, ⟨_, rfl, ?_⟩⟩
  · exact c6_domain_monotonicity.2.1 [tA, tB] (CSPMatches.new [tA, tB]) _ rfl
      (c6_domain_monotonicity.1 [tA, tB])
  · exact c6_domain_monotonicity.2.2.1 [tA, tB] (CSPMatches.new [tA, tB]) _ rfl
  · exact c6_domain_monotonicity.2.2.2 (CSPMatches.new [tA, tB]) tA tB _
      (by decide) rfl

/-- Claim C7: the pass on the empty roster completes normally with an empty
fixture list, and on any single-competitor roster it completes normally with
an empty fixture list. -/
theorem c7_trivial_rosters :
    ((CSPMatches.new []).schedule_matches = some (CSPMatches.new []) ∧
      (CSPMatches.new []).scheduled_matches = []) ∧
    (∀ t : Team, ∃ s', (CSPMatches.new [t]).schedule_matches = some s' ∧
      s'.scheduled_matches = []) := by
  refine ⟨⟨rfl, rfl⟩, ?_⟩
  intro t
  refine ⟨CSPMatches.new [t], ?_, rfl⟩
  have hdom : (CSPMatches.new [t]).domains t = some [] := by
    simp [CSPMatches.new, CSPMatches.initialize_domains]
  show (CSPMatches.new [t]).schedule_loop [t] = some (CSPMatches.new [t])
  unfold CSPMatches.schedule_loop
  rw [hdom]
  rfl

/-- Claim C8: the candidate scan for a competitor `t` commits with the first
candidate in `t`'s current domain list that the constraints accept and stops
there; if no candidate is accepted the state is unchanged; and in all cases a
single scan adds either no fixture or exactly the one forward/return pair. -/
theorem c8_first_fit :
    (∀ (s : CSPMatches) t dl, (∀ o ∈ dl, CSPMatches.satisfies_constraints t o = false) →
      s.try_opponents t dl = some s) ∧
    (∀ (s : CSPMatches) t pre o post,
      (∀ x ∈ pre, CSPMatches.satisfies_constraints t x = false) →
      CSPMatches.satisfies_constraints t o = true →
      s.try_opponents t (pre ++ o :: post) = s.commit_pair t o) ∧
    (∀ (s : CSPMatches) t dl s', s.try_opponents t dl = some s' →
      s'.scheduled_matches = s.scheduled_matches ∨
      ∃ o, o ∈ dl ∧ CSPMatches.satisfies_constraints t o = true ∧
        s'.scheduled_matches = s.scheduled_matches ++
          [Match.new t o, Match.new o t]) := by
  refine ⟨?_, ?_, ?_⟩
  · intro s t dl
    induction dl with
    | nil => intro _; rfl
    | cons o rest ih =>
      intro hall
      unfold CSPMatches.try_opponents
      have hx : ¬ (CSPMatches.satisfies_constraints t o = true) := by
        simp [hall o (by simp)]
      rw [if_neg hx]
      exact ih (fun y hy => hall y (by simp [hy]))
  · intro s t pre
    induction pre with
    | nil =>
      intro o post _ hsat
      simp only [List.nil_append]
      unfold CSPMatches.try_opponents
      rw [if_pos hsat]
    | cons x pre' ih =>
      intro o post hall hsat
      simp only [List.cons_append]
      unfold CSPMatches.try_opponents
      have hx : ¬ (CSPMatches.satisfies_constraints t x = true) := by
        simp [hall x (by simp)]
      rw [if_neg hx]
      exact ih o post (fun y hy => hall y (by simp [hy])) hsat
  · intro s t dl
    induction dl with
    | nil =>
      intro s' h
      unfold CSPMatches.try_opponents at h
      simp only [Option.some.injEq] at h
      subst h
      exact Or.inl rfl
    | cons o rest ih =>
      intro s' h
      unfold CSPMatches.try_opponents at h
      split at h
      · rename_i hsat
        have hne := satisfies_ne t o hsat
        exact Or.inr ⟨o, by simp, hsat, (commit_pair_spec s t o hne s' h).2.1⟩
      · rcases ih s' h with hl | ⟨o2, ho2, hsat2, heq⟩
        · exact Or.inl hl
        · exact Or.inr ⟨o2, by simp [ho2], hsat2, heq⟩

/-- Witness for C8 at concrete states and candidate lists. -/
theorem c8_first_fit_witness :
    (CSPMatches.new [tA, tB]).try_opponents tA [tA] = some (CSPMatches.new [tA, tB]) ∧
    (CSPMatches.new [tA, tB]).try_opponents tA [tB] =
      (CSPMatches.new [tA, tB]).commit_pair tA tB ∧
    (∃ s', (CSPMatches.new [tA, tB]).try_opponents tA [tB] = some s' ∧
      (s'.scheduled_matches = (CSPMatches.new [tA, tB]).scheduled_matches ∨
        ∃ o, o ∈ [tB] ∧ CSPMatches.satisfies_constraints tA o = true ∧
          s'.scheduled_matches = (CSPMatches.new [tA, tB]).scheduled_matches ++
            [Match.new tA o, Match.new o tA])) := by
  refine ⟨?_, ?_, ⟨_, rfl, ?_⟩⟩
  · exact c8_first_fit.1 (CSPMatches.new [tA, tB]) tA [tA] (by decide)
  · exact c8_first_fit.2.1 (CSPMatches.new [tA, tB]) tA [] tB [] (by decide) (by decide)
  · exact c8_first_fit.2.2 (CSPMatches.new [tA, tB]) tA [tB] _ rfl

/-- Claim C9: `initialize_group_requirements` creates counters exactly for
the hardcoded groups `1..=4`; if a tracked team's counter map is addressed at
an out-of-range opponent group, the `.unwrap()` in `update_group_tracking`
panics (`none`); and a whole pass over a roster containing an out-of-range
committed competitor panics. -/
theorem c9_out_of_range_group_panics :
    (∀ (teams : List Team) (t : Team), t ∈ teams →
      ∃ m, CSPMatches.initialize_group_requirements teams t = some m ∧
        ∀ g, (m g).isSome = true ↔ (1 ≤ g ∧ g ≤ 4)) ∧
    (∀ (s : CSPMatches) (t o : Team) (m : Nat → Option (Nat × Nat)),
      s.group_requirements t = some m →
      (∀ g, (m g).isSome = true ↔ (1 ≤ g ∧ g ≤ 4)) →
      ¬(1 ≤ o.group ∧ o.group ≤ 4) →
      s.update_group_tracking t o true = none) ∧
    (CSPMatches.new [tB, tBad]).schedule_matches = none := by
  refine ⟨?_, ?_, ?_⟩
  · intro teams t ht
    refine ⟨fun group => if 1 ≤ group ∧ group ≤ 4 then some (0, 0) else none, ?_, ?_⟩
    · simp [CSPMatches.initialize_group_requirements, ht]
    · intro g
      by_cases hg : 1 ≤ g ∧ g ≤ 4
      · simp [hg]
      · simp [hg]
  · intro s t o m hm hiff hout
    have hmo : m o.group = none := by
      cases hmo : m o.group with
      | none => rfl
      | some e =>
        exact absurd ((hiff o.group).mp (by rw [hmo]; rfl)) hout
    have hnone : s.updateReq t o.group
        (fun e => if true = true then (e.1 + 1, e.2) else (e.1, e.2 + 1)) = none :=
      updateReq_none s t o.group _ m hm hmo
    unfold CSPMatches.update_group_tracking
    rw [hnone]
  · rfl

/-- Witness for C9: the initializer's range on a concrete roster, and the
panic of a tracking call addressed at the out-of-range group of `tBad`. -/
theorem c9_out_of_range_group_panics_witness :
    (∃ m, CSPMatches.initialize_group_requirements [tB] tB = some m ∧
      ∀ g, (m g).isSome = true ↔ (1 ≤ g ∧ g ≤ 4)) ∧
    (CSPMatches.new [tB, tBad]).update_group_tracking tB tBad true = none := by
  constructor
  · exact c9_out_of_range_group_panics.1 [tB] tB (by decide)
  · exact c9_out_of_range_group_panics.2.1 (CSPMatches.new [tB, tBad]) tB tBad
      (fun group => if 1 ≤ group ∧ group ≤ 4 then some (0, 0) else none) rfl
      (fun g => by by_cases hg : 1 ≤ g ∧ g ≤ 4 <;> simp [hg]) (by decide)

/-- Claim C10: exporting the same committed fixture list twice yields the
same rows both times; the sort by home-team name is idempotent (sorting an
already-sorted list leaves it unchanged), so exporting the sorted list again
yields the same rows; and the export is headed by the two-column header. -/
theorem c10_idempotent_export (ms : List Match) :
    save_rows ms = save_rows ms ∧
    sortByHomeName (sortByHomeName ms) = sortByHomeName ms ∧
    save_rows (sortByHomeName ms) = save_rows ms ∧
    (save_rows ms).head? = some ["Home Team", "Away Team"] := by
  have hidem : sortByHomeName (sortByHomeName ms) = sortByHomeName ms :=
    sortByHomeName_of_pairwise _ (sortByHomeName_pairwise ms)
  refine ⟨rfl, hidem, ?_, rfl⟩
  unfold save_rows
  rw [hidem]
